import Mathlib

/-!
Shallow embedding of `src/natgas_HH_volatility_analysis.py`, the core numerical
pipeline of the Henry Hub natural-gas volatility analysis: date normalization
(`convert_date_format` plus the reversal done in `main`), log-return computation
(`calculate_ln_returns`) and rolling volatility (`calculate_rolling_volatility`).

Numeric cells are modelled as `Option ℝ`: `none` stands for any non-finite
float (NaN from missing data or invalid operations, and the ±inf produced by
division by zero or `np.log 0`), matching the specification's notion of an
undefined sentinel value.  All finite float arithmetic is idealized as exact
real arithmetic, so the spec's 1e-9 tolerances become exact equalities.
-/

namespace NatgasHH

/-- Numeric cell of a pandas column: `none` models a non-finite float
(NaN or ±inf), `some x` a finite value. -/
abbrev Val := Option ℝ

/-- Elementwise float division as performed by `df[col] / df[col].shift(1)`:
any operand that is non-finite, and any division by zero (which yields
±inf or NaN), produces a non-finite result. -/
noncomputable def npDiv : Val → Val → Val
  | some a, some b => if b = 0 then none else some (a / b)
  | _, _ => none

/-- Elementwise `np.log`: NaN propagates, `log` of zero is -inf and `log`
of a negative number is NaN (with a runtime warning, never an exception),
so only strictly positive finite inputs give a finite result. -/
noncomputable def npLog : Val → Val
  | some x => if 0 < x then some (Real.log x) else none
  | none => none

/-- Embeds `calculate_ln_returns` (source lines 74-87): the added column is
`np.log(df[price] / df[price].shift(1))` computed elementwise; `shift(1)`
makes the predecessor of position 0 NaN, so position 0 is undefined. -/
noncomputable def calculate_ln_returns (prices : List Val) : List Val :=
  (List.range prices.length).map fun i =>
    if i = 0 then none
    else npLog (npDiv (prices.getD i none) (prices.getD (i - 1) none))

@[simp] theorem npDiv_none_left (b : Val) : npDiv none b = none := rfl

@[simp] theorem npDiv_none_right (a : Val) : npDiv a none = none := by
  cases a <;> rfl

theorem npDiv_some_some (a b : ℝ) (hb : b ≠ 0) :
    npDiv (some a) (some b) = some (a / b) := by
  simp [npDiv, hb]

@[simp] theorem npDiv_some_zero (a : ℝ) : npDiv (some a) (some 0) = none := by
  simp [npDiv]

@[simp] theorem npLog_none : npLog none = none := rfl

theorem npLog_of_pos {x : ℝ} (hx : 0 < x) : npLog (some x) = some (Real.log x) := by
  simp [npLog, hx]

theorem npLog_of_nonpos {x : ℝ} (hx : x ≤ 0) : npLog (some x) = none := by
  simp [npLog, not_lt.mpr hx]

theorem getD_map_range {α : Type} (f : ℕ → α) (n i : ℕ) (d : α) (h : i < n) :
    ((List.range n).map f).getD i d = f i := by
  rw [List.getD_eq_getElem?_getD]
  rw [List.getElem?_map]
  rw [List.getElem?_range h]
  rfl

theorem getD_oob {α : Type} (l : List α) (i : ℕ) (d : α) (h : l.length ≤ i) :
    l.getD i d = d := by
  rw [List.getD_eq_getElem?_getD, List.getElem?_eq_none h]
  rfl

@[simp] theorem calculate_ln_returns_length (prices : List Val) :
    (calculate_ln_returns prices).length = prices.length := by
  simp [calculate_ln_returns]

theorem calculate_ln_returns_getD_zero (prices : List Val) :
    (calculate_ln_returns prices).getD 0 none = none := by
  rcases Nat.eq_zero_or_pos prices.length with h | h
  · exact getD_oob _ _ _ (by simp [h])
  · rw [calculate_ln_returns, getD_map_range _ _ _ _ h]
    rfl

theorem calculate_ln_returns_getD (prices : List Val) (i : ℕ)
    (h1 : 1 ≤ i) (h2 : i < prices.length) :
    (calculate_ln_returns prices).getD i none
      = npLog (npDiv (prices.getD i none) (prices.getD (i - 1) none)) := by
  rw [calculate_ln_returns, getD_map_range _ _ _ _ h2, if_neg (by omega : ¬ i = 0)]

/-- Trailing window of (at most) `w` cells ending at position `i`. -/
def winSlice (xs : List Val) (w i : ℕ) : List Val :=
  (xs.take (i + 1)).drop (i + 1 - w)

/-- True when every cell of the list is defined (finite). -/
def allSome (xs : List Val) : Bool := xs.all Option.isSome

/-- The defined values of a column, in order. -/
def someVals (xs : List Val) : List ℝ := xs.filterMap id

/-- Arithmetic mean of a sample. -/
noncomputable def sampleMean (xs : List ℝ) : ℝ := xs.sum / xs.length

/-- Unbiased sample variance: sum of squared deviations from the mean,
divided by (sample size - 1). -/
noncomputable def sampleVar (xs : List ℝ) : ℝ :=
  (xs.map (fun x => (x - sampleMean xs) ^ 2)).sum / ((xs.length : ℝ) - 1)

/-- Unbiased sample standard deviation. -/
noncomputable def sampleStd (xs : List ℝ) : ℝ := Real.sqrt (sampleVar xs)

/-- Embeds `calculate_rolling_volatility` (source lines 89-103): the added
column is `df[returns].rolling(window=w).std()`.  Pandas semantics: with the
default `min_periods = w`, position `i` gets a finite value only when the
trailing window holds `w` cells (`w ≤ i+1`) that are all finite; `std` uses
`ddof = 1`, so a window of a single sample is 0/0 = NaN, whence the `2 ≤ w`
conjunct (pandas itself rejects negative windows with a `ValueError` before
any computation, so the window is modelled as a natural number).  A window
containing ±inf also yields NaN, which the `Val` model folds into `none`
at the cell level. -/
noncomputable def calculate_rolling_volatility (xs : List Val) (w : ℕ) : List Val :=
  (List.range xs.length).map fun i =>
    if 2 ≤ w ∧ w ≤ i + 1 ∧ allSome (winSlice xs w i) then
      some (sampleStd (someVals (winSlice xs w i)))
    else none

@[simp] theorem calculate_rolling_volatility_length (xs : List Val) (w : ℕ) :
    (calculate_rolling_volatility xs w).length = xs.length := by
  simp [calculate_rolling_volatility]

theorem calculate_rolling_volatility_getD (xs : List Val) (w i : ℕ)
    (h : i < xs.length) :
    (calculate_rolling_volatility xs w).getD i none
      = if 2 ≤ w ∧ w ≤ i + 1 ∧ allSome (winSlice xs w i) then
          some (sampleStd (someVals (winSlice xs w i)))
        else none := by
  rw [calculate_rolling_volatility, getD_map_range _ _ _ _ h]

theorem winSlice_eq_map (xs : List Val) (w i : ℕ) (hw : w ≤ i + 1)
    (hi : i < xs.length) :
    winSlice xs w i = (List.range w).map fun k => xs.getD (i + 1 - w + k) none := by
  apply List.ext_getElem
  · simp [winSlice]
    omega
  · intro k hk1 hk2
    have hk : k < w := by simp [winSlice] at hk1; omega
    have hidx : i + 1 - w + k < xs.length := by omega
    simp only [winSlice, List.getElem_drop, List.getElem_take, List.getElem_map,
      List.getElem_range]
    rw [List.getD_eq_getElem?_getD, List.getElem?_eq_getElem hidx]
    rfl

theorem allSome_iff (xs : List Val) :
    allSome xs = true ↔ ∀ j, j < xs.length → (xs.getD j none).isSome = true := by
  rw [allSome, List.all_eq_true]
  constructor
  · intro h j hj
    rw [List.getD_eq_getElem?_getD, List.getElem?_eq_getElem hj]
    exact h _ (List.getElem_mem hj)
  · intro h x hx
    rcases List.mem_iff_getElem.mp hx with ⟨j, hj, rfl⟩
    have := h j hj
    rwa [List.getD_eq_getElem?_getD, List.getElem?_eq_getElem hj] at this

theorem someVals_of_allSome (xs : List Val) (h : allSome xs = true) :
    someVals xs = xs.map (fun o => o.getD 0) := by
  induction xs with
  | nil => rfl
  | cons a t ih =>
      rw [allSome, List.all_cons, Bool.and_eq_true] at h
      rcases a with _ | x
      · simp at h
      · simp only [someVals, List.filterMap_cons, id, List.map_cons, Option.getD_some]
        exact congrArg (x :: ·) (ih h.2)

/-- A rolling-std cell whose window covers an undefined return is undefined,
for every window length. -/
theorem rolling_none_of_window_none (xs : List Val) (w i j : ℕ)
    (hi : i < xs.length) (hj1 : i + 1 - w ≤ j) (hj2 : j ≤ i)
    (hnone : xs.getD j none = none) :
    (calculate_rolling_volatility xs w).getD i none = none := by
  rw [calculate_rolling_volatility_getD _ _ _ hi]
  apply if_neg
  rintro ⟨h2, hw, hall⟩
  have hmap := winSlice_eq_map xs w i hw hi
  have hj : j < xs.length := lt_of_le_of_lt hj2 hi
  have hk : j - (i + 1 - w) < w := by omega
  have := (allSome_iff _).mp hall (j - (i + 1 - w)) (by rw [hmap]; simp; omega)
  rw [hmap, getD_map_range _ _ _ _ hk, (by omega : i + 1 - w + (j - (i + 1 - w)) = j),
    hnone] at this
  simp at this

/-- A raw date text in the source format `MM/DD/YYYY`, abstracted to its three
numeric fields (the claims under verification only exercise field-value
validity, not the textual shape). -/
structure RawDate where
  month : ℕ
  day : ℕ
  year : ℕ
deriving DecidableEq

/-- A reformatted date in the target format `DD/MM/YYYY`. -/
structure DMYDate where
  day : ℕ
  month : ℕ
  year : ℕ
deriving DecidableEq

/-- Gregorian leap-year rule, as applied by `pd.to_datetime`. -/
def isLeapYear (y : ℕ) : Bool := y % 4 == 0 && (y % 100 != 0 || y % 400 == 0)

/-- Number of days of month `m` in year `y`. -/
def daysInMonth (m y : ℕ) : ℕ :=
  if m = 2 then (if isLeapYear y then 29 else 28)
  else if m = 4 ∨ m = 6 ∨ m = 9 ∨ m = 11 then 30 else 31

/-- Calendar validity as checked by `pd.to_datetime(..., format=\x27%m/%d/%Y\x27)`:
the month must be 1..12 and the day must exist in that month.  (Pandas also
bounds the representable `Timestamp` range to the years 1677-2262; no claim
under verification exercises that bound, so it is not modelled.) -/
def validDate (d : RawDate) : Bool :=
  1 ≤ d.month && d.month ≤ 12 && 1 ≤ d.day && d.day ≤ daysInMonth d.month d.year

/-- Reserialization under the target format swaps the textual positions of day
and month; the denoted calendar date is unchanged. -/
def toDMY (d : RawDate) : DMYDate := ⟨d.day, d.month, d.year⟩

/-- Chronological key of a source-format date (lexicographic year, month, day;
injective for in-range fields). -/
def mdyKey (d : RawDate) : ℕ := d.year * 10000 + d.month * 100 + d.day

/-- Chronological key of a target-format date. -/
def dmyKey (d : DMYDate) : ℕ := d.year * 10000 + d.month * 100 + d.day

/-- Helper of `convert_date_format`: converts the records in order, starting at
record index `i`; the first unparseable date aborts the whole conversion with
its index and raw date, exactly as `pd.to_datetime` raises at the first
failing position of the column. -/
def convertAux {π : Type} (i : ℕ) : List (RawDate × π) → Except (ℕ × RawDate) (List (DMYDate × π))
  | [] => .ok []
  | (d, p) :: rest =>
    if validDate d then
      match convertAux (i + 1) rest with
      | .ok out => .ok ((toDMY d, p) :: out)
      | .error e => .error e
    else .error (i, d)

/-- Embeds `convert_date_format` (source lines 26-39): parses every date of the
date column under `MM/DD/YYYY` and rewrites it as `DD/MM/YYYY`.  The result is
all-or-nothing: `pd.to_datetime` raises a `ValueError` naming the first failing
position and its raw text before anything is assigned, so on failure no partial
series exists; the error value carries that index and raw date.  Non-date
columns (the payload `π`, the prices) are carried through unchanged. -/
def convert_date_format {π : Type} (recs : List (RawDate × π)) :
    Except (ℕ × RawDate) (List (DMYDate × π)) :=
  convertAux 0 recs

/-- Embeds the normalization performed by `main` (source lines 147-150): the
unconditional reversal `df.iloc[::-1].reset_index(drop=True)` followed by
`convert_date_format`. -/
def normalize {π : Type} (recs : List (RawDate × π)) :
    Except (ℕ × RawDate) (List (DMYDate × π)) :=
  convert_date_format recs.reverse

theorem convertAux_ok_of_valid {π : Type} (i : ℕ) (recs : List (RawDate × π))
    (h : ∀ d ∈ recs.map Prod.fst, validDate d = true) :
    convertAux i recs = .ok (recs.map fun r => (toDMY r.1, r.2)) := by
  induction recs generalizing i with
  | nil => rfl
  | cons r rest ih =>
      obtain ⟨d, p⟩ := r
      have hd : validDate d = true := h d (by simp)
      have hrest : ∀ x ∈ rest.map Prod.fst, validDate x = true := by
        intro x hx
        exact h x (by simp at hx ⊢; exact Or.inr hx)
      simp only [convertAux, hd, if_true, ih i.succ hrest, List.map_cons]

theorem convertAux_error_at {π : Type} (k : ℕ) (recs : List (RawDate × π)) (i : ℕ)
    (hi : i < recs.length)
    (hbad : validDate ((recs.map Prod.fst).getD i ⟨0, 0, 0⟩) = false)
    (hgood : ∀ j, j < i → validDate ((recs.map Prod.fst).getD j ⟨0, 0, 0⟩) = true) :
    convertAux k recs = .error (k + i, (recs.map Prod.fst).getD i ⟨0, 0, 0⟩) := by
  induction recs generalizing k i with
  | nil => simp at hi
  | cons r rest ih =>
      obtain ⟨d, p⟩ := r
      cases i with
      | zero =>
          simp only [List.map_cons, List.getD_cons_zero] at hbad ⊢
          simp only [convertAux, hbad, Bool.false_eq_true, if_false, Nat.add_zero]
      | succ i =>
          have hd : validDate d = true := by simpa using hgood 0 (Nat.succ_pos i)
          simp only [List.map_cons, List.getD_cons_succ] at hbad ⊢
          have hrec := ih (k + 1) i (by simp at hi; omega) hbad
            (by intro j hj; simpa using hgood (j + 1) (by omega))
          simp only [convertAux, hd, if_true, hrec]
          rw [(by omega : k + 1 + i = k + (i + 1))]

/-- A cell of a dataframe: a raw `MM/DD/YYYY` date text, a reformatted
`DD/MM/YYYY` date text, or a numeric cell. -/
inductive Cell where
  | mdy (d : RawDate)
  | dmy (d : DMYDate)
  | num (v : Val)

/-- Numeric view of a cell; the pipeline only takes it on numeric columns. -/
def cellNum : Cell → Val
  | .num v => v
  | _ => none

/-- A dataframe: named columns of cells.  Column labels are modelled as
numeric identifiers standing for the source's string labels. -/
structure DF where
  cols : List (ℕ × List Cell)

/-- Look a column up by label (empty when absent). -/
def DF.getCol (df : DF) (c : ℕ) : List Cell :=
  ((df.cols.find? fun p => p.1 == c).map Prod.snd).getD []

/-- Column assignment `df[c] = v`: overwrite in place when the label exists,
append a new column otherwise. -/
def DF.setCol (df : DF) (c : ℕ) (v : List Cell) : DF :=
  if df.cols.any fun p => p.1 == c then
    ⟨df.cols.map fun p => if p.1 == c then (c, v) else p⟩
  else ⟨df.cols ++ [(c, v)]⟩

/-- A heap of dataframe objects; Python references are indices into it. -/
structure Store where
  heap : List DF

/-- Dereference (an empty frame for a dangling reference). -/
def Store.read (s : Store) (r : ℕ) : DF := s.heap.getD r ⟨[]⟩

/-- `df.copy()`: allocate a fresh object holding the given frame and return
its (fresh) reference. -/
def Store.alloc (s : Store) (df : DF) : Store × ℕ :=
  (⟨s.heap ++ [df]⟩, s.heap.length)

/-- Overwrite the object behind a reference. -/
def Store.write (s : Store) (r : ℕ) (df : DF) : Store := ⟨s.heap.set r df⟩

/-- Column label of the added returns column, standing for `\x27ln_returns\x27`. -/
def lnReturnsCol : ℕ := 101

/-- Column label of the added volatility column, standing for
`\x27rolling_volatility\x27`. -/
def rollingVolCol : ℕ := 102

/-- Heap-level embedding of `calculate_ln_returns` (source lines 85-87):
`df_copy = df.copy()`, then assignment of the new column on the copy, then
return of the copy's reference. -/
noncomputable def calculate_ln_returns_df (s : Store) (r : ℕ) (priceCol : ℕ) : Store × ℕ :=
  let df := s.read r
  let a := s.alloc df
  let newCol := (calculate_ln_returns ((df.getCol priceCol).map cellNum)).map Cell.num
  (a.1.write a.2 (df.setCol lnReturnsCol newCol), a.2)

/-- Heap-level embedding of `calculate_rolling_volatility` (source lines
101-103): copy, column assignment on the copy, return the copy. -/
noncomputable def calculate_rolling_volatility_df (s : Store) (r : ℕ) (retCol w : ℕ) :
    Store × ℕ :=
  let df := s.read r
  let a := s.alloc df
  let newCol :=
    (calculate_rolling_volatility ((df.getCol retCol).map cellNum) w).map Cell.num
  (a.1.write a.2 (df.setCol rollingVolCol newCol), a.2)

/-- Converts a column of cells as `pd.to_datetime(..).dt.strftime(..)` does,
failing at the first cell that does not parse as a valid `MM/DD/YYYY` date
(a cell already in another shape does not parse either). -/
def convertCol (i : ℕ) : List Cell → Except (ℕ × Cell) (List Cell)
  | [] => .ok []
  | c :: rest =>
    match c with
    | .mdy d =>
        if validDate d then
          match convertCol (i + 1) rest with
          | .ok out => .ok (.dmy (toDMY d) :: out)
          | .error e => .error e
        else .error (i, c)
    | other => .error (i, other)

/-- Heap-level embedding of `convert_date_format` (source lines 37-39):
`df_copy = df.copy()`, then `pd.to_datetime` over the date column (which
raises on the first malformed date, before anything is assigned), then
assignment on the copy and return of the copy's reference. -/
def convert_date_format_df (s : Store) (r : ℕ) (dateCol : ℕ) :
    Except (ℕ × Cell) (Store × ℕ) :=
  match convertCol 0 ((s.read r).getCol dateCol) with
  | .ok newCol =>
      .ok ((s.alloc (s.read r)).1.write (s.alloc (s.read r)).2
            ((s.read r).setCol dateCol newCol), (s.alloc (s.read r)).2)
  | .error e => .error e

theorem store_read_alloc_write (s : Store) (df df2 : DF) (r : ℕ)
    (hr : r < s.heap.length) :
    ((s.alloc df).1.write (s.alloc df).2 df2).read r = s.read r := by
  simp only [Store.alloc, Store.write, Store.read]
  rw [List.getD_eq_getElem?_getD, List.getElem?_set_ne (by omega)]
  rw [List.getElem?_append_left hr]
  rw [List.getD_eq_getElem?_getD]

theorem ln_returns_value (prices : List Val) (i : ℕ) (a b : ℝ)
    (h1 : 1 ≤ i) (h2 : i < prices.length)
    (ha : prices.getD (i - 1) none = some a) (hb : prices.getD i none = some b)
    (hapos : 0 < a) (hbpos : 0 < b) :
    (calculate_ln_returns prices).getD i none = some (Real.log (b / a)) := by
  rw [calculate_ln_returns_getD prices i h1 h2, ha, hb,
    npDiv_some_some b a (ne_of_gt hapos), npLog_of_pos (div_pos hbpos hapos)]

/-- C1: for every price series of length n, `calculate_ln_returns` produces a
return series of length n whose element 0 is undefined, and for every i ≥ 1
with both neighbouring prices defined and positive, return i equals
ln(price i / price (i-1)), which equals ln(price i) - ln(price (i-1))
(exactly, in the real-number idealization of the float computation). -/
theorem C1_log_returns (prices : List Val) (i : ℕ) (a b : ℝ)
    (h1 : 1 ≤ i) (h2 : i < prices.length)
    (ha : prices.getD (i - 1) none = some a) (hb : prices.getD i none = some b)
    (hapos : 0 < a) (hbpos : 0 < b) :
    (calculate_ln_returns prices).length = prices.length ∧
    (calculate_ln_returns prices).getD 0 none = none ∧
    (calculate_ln_returns prices).getD i none = some (Real.log (b / a)) ∧
    Real.log (b / a) = Real.log b - Real.log a :=
  ⟨calculate_ln_returns_length prices, calculate_ln_returns_getD_zero prices,
    ln_returns_value prices i a b h1 h2 ha hb hapos hbpos,
    Real.log_div (ne_of_gt hbpos) (ne_of_gt hapos)⟩

/-- Witness for C1 at the concrete price series [2, 4] and position 1. -/
theorem C1_log_returns_witness :
    ((1 : ℕ) ≤ 1 ∧ 1 < ([some (2 : ℝ), some 4] : List Val).length ∧
      ([some (2 : ℝ), some 4] : List Val).getD 0 none = some 2 ∧
      ([some (2 : ℝ), some 4] : List Val).getD 1 none = some 4 ∧
      (0 : ℝ) < 2 ∧ (0 : ℝ) < 4) ∧
    ((calculate_ln_returns [some (2 : ℝ), some 4]).length = 2 ∧
      (calculate_ln_returns [some (2 : ℝ), some 4]).getD 0 none = none ∧
      (calculate_ln_returns [some (2 : ℝ), some 4]).getD 1 none
        = some (Real.log ((4 : ℝ) / 2)) ∧
      Real.log ((4 : ℝ) / 2) = Real.log 4 - Real.log 2) :=
  ⟨⟨le_refl 1, by norm_num, rfl, rfl, by norm_num, by norm_num⟩,
    C1_log_returns [some 2, some 4] 1 2 4 (le_refl 1) (by norm_num) rfl rfl
      (by norm_num) (by norm_num)⟩

/-- C10: a positive previous price followed by a negative price (excluded by
the spec precondition but accepted by the function) makes the log of the
negative ratio NaN, an undefined return; no exception is raised (the embedded
function is total). -/
theorem C10_negative_price (prices : List Val) (i : ℕ) (a b : ℝ)
    (h1 : 1 ≤ i) (h2 : i < prices.length)
    (ha : prices.getD (i - 1) none = some a) (hb : prices.getD i none = some b)
    (hapos : 0 < a) (hbneg : b < 0) :
    (calculate_ln_returns prices).getD i none = none := by
  rw [calculate_ln_returns_getD prices i h1 h2, ha, hb,
    npDiv_some_some b a (ne_of_gt hapos),
    npLog_of_nonpos (le_of_lt (div_neg_of_neg_of_pos hbneg hapos))]

/-- Witness for C10 at the concrete price series [1, -1] and position 1. -/
theorem C10_negative_price_witness :
    ((1 : ℕ) ≤ 1 ∧ 1 < ([some (1 : ℝ), some (-1)] : List Val).length ∧
      ([some (1 : ℝ), some (-1)] : List Val).getD 0 none = some 1 ∧
      ([some (1 : ℝ), some (-1)] : List Val).getD 1 none = some (-1) ∧
      (0 : ℝ) < 1 ∧ (-1 : ℝ) < 0) ∧
    (calculate_ln_returns [some (1 : ℝ), some (-1)]).getD 1 none = none :=
  ⟨⟨le_refl 1, by norm_num, rfl, rfl, by norm_num, by norm_num⟩,
    C10_negative_price [some 1, some (-1)] 1 1 (-1) (le_refl 1) (by norm_num) rfl rfl
      (by norm_num) (by norm_num)⟩

/-- C3: on a price series of non-negative prices, return i is undefined when
the previous price is ≤ 0 (hence 0) or either neighbouring price is
undefined; a zero price at position j makes return j and return (j+1)
undefined, and every volatility window overlapping either position is
undefined.  The embedded computation is total, so nothing is raised. -/
theorem C3_zero_price_propagation (prices : List Val) (i j w iv : ℕ)
    (hnn : ∀ k, k < prices.length → ∀ x : ℝ, prices.getD k none = some x → 0 ≤ x)
    (h1 : 1 ≤ i) (h2 : i < prices.length)
    (hbad : (∃ x : ℝ, prices.getD (i - 1) none = some x ∧ x ≤ 0) ∨
      prices.getD (i - 1) none = none ∨ prices.getD i none = none)
    (hj : j < prices.length) (hzero : prices.getD j none = some 0)
    (hiv : iv < prices.length)
    (hoverlap : (iv + 1 - w ≤ j ∧ j ≤ iv) ∨ (iv + 1 - w ≤ j + 1 ∧ j + 1 ≤ iv)) :
    (calculate_ln_returns prices).getD i none = none ∧
    (calculate_ln_returns prices).getD j none = none ∧
    (calculate_ln_returns prices).getD (j + 1) none = none ∧
    (calculate_rolling_volatility (calculate_ln_returns prices) w).getD iv none = none := by
  have hretj : (calculate_ln_returns prices).getD j none = none := by
    cases j with
    | zero => exact calculate_ln_returns_getD_zero prices
    | succ j' =>
        rw [calculate_ln_returns_getD prices (j' + 1) (Nat.succ_le_succ (Nat.zero_le j')) hj,
          hzero]
        rcases hp : prices.getD (j' + 1 - 1) none with _ | a
        · rw [npDiv_none_right, npLog_none]
        · by_cases hazero : a = 0
          · rw [hazero, npDiv_some_zero, npLog_none]
          · rw [npDiv_some_some 0 a hazero, zero_div, npLog_of_nonpos (le_refl 0)]
  have hretj1 : (calculate_ln_returns prices).getD (j + 1) none = none := by
    by_cases hj1 : j + 1 < prices.length
    · rw [calculate_ln_returns_getD prices (j + 1) (Nat.succ_le_succ (Nat.zero_le j)) hj1,
        Nat.add_sub_cancel, hzero]
      rcases prices.getD (j + 1) none with _ | b
      · rw [npDiv_none_left, npLog_none]
      · rw [npDiv_some_zero, npLog_none]
    · exact getD_oob _ _ _ (by rw [calculate_ln_returns_length]; omega)
  refine ⟨?_, hretj, hretj1, ?_⟩
  · rcases hbad with ⟨x, hx, hxle⟩ | hnone | hnone
    · have hx0 : x = 0 := le_antisymm hxle (hnn (i - 1) (by omega) x hx)
      rw [calculate_ln_returns_getD prices i h1 h2, hx, hx0]
      rcases prices.getD i none with _ | b
      · rw [npDiv_none_left, npLog_none]
      · rw [npDiv_some_zero, npLog_none]
    · rw [calculate_ln_returns_getD prices i h1 h2, hnone, npDiv_none_right, npLog_none]
    · rw [calculate_ln_returns_getD prices i h1 h2, hnone, npDiv_none_left, npLog_none]
  · rcases hoverlap with ⟨ho1, ho2⟩ | ⟨ho1, ho2⟩
    · exact rolling_none_of_window_none _ w iv j
        (by rw [calculate_ln_returns_length]; exact hiv) ho1 ho2 hretj
    · exact rolling_none_of_window_none _ w iv (j + 1)
        (by rw [calculate_ln_returns_length]; exact hiv) ho1 ho2 hretj1

/-- Witness for C3 at the concrete price series [1, 0, 1], with i = 2, the
zero at j = 1, and the window of length 2 ending at position 1. -/
theorem C3_zero_price_propagation_witness :
    ((∀ k, k < ([some (1 : ℝ), some 0, some 1] : List Val).length →
        ∀ x : ℝ, ([some (1 : ℝ), some 0, some 1] : List Val).getD k none = some x → 0 ≤ x) ∧
      (1 : ℕ) ≤ 2 ∧ 2 < ([some (1 : ℝ), some 0, some 1] : List Val).length ∧
      (∃ x : ℝ, ([some (1 : ℝ), some 0, some 1] : List Val).getD (2 - 1) none = some x ∧ x ≤ 0) ∧
      1 < ([some (1 : ℝ), some 0, some 1] : List Val).length ∧
      ([some (1 : ℝ), some 0, some 1] : List Val).getD 1 none = some 0 ∧
      ((1 : ℕ) + 1 - 2 ≤ 1 ∧ 1 ≤ 1)) ∧
    ((calculate_ln_returns [some (1 : ℝ), some 0, some 1]).getD 2 none = none ∧
      (calculate_ln_returns [some (1 : ℝ), some 0, some 1]).getD 1 none = none ∧
      (calculate_ln_returns [some (1 : ℝ), some 0, some 1]).getD 2 none = none ∧
      (calculate_rolling_volatility (calculate_ln_returns [some (1 : ℝ), some 0, some 1]) 2).getD 1 none
        = none) := by
  have hnn : ∀ k, k < ([some (1 : ℝ), some 0, some 1] : List Val).length →
      ∀ x : ℝ, ([some (1 : ℝ), some 0, some 1] : List Val).getD k none = some x → 0 ≤ x := by
    intro k hk x hx
    simp only [List.length_cons, List.length_nil] at hk
    interval_cases k <;>
      simp only [List.getD_cons_zero, List.getD_cons_succ, Option.some.injEq] at hx <;>
      rw [← hx] <;> norm_num
  exact ⟨⟨hnn, by norm_num, by norm_num, ⟨0, rfl, le_refl 0⟩, by norm_num, rfl,
      ⟨by norm_num, le_refl 1⟩⟩,
    C3_zero_price_propagation [some 1, some 0, some 1] 2 1 2 1 hnn
      (by norm_num) (by norm_num) (Or.inl ⟨0, rfl, le_refl 0⟩) (by norm_num) rfl
      (by norm_num) (Or.inl ⟨by norm_num, le_refl 1⟩)⟩

/-- C2: for 2 ≤ w ≤ n, the rolling volatility has length n; position i is
defined iff i ≥ w-1 and all returns in the trailing window of length w are
defined, and each defined value is the unbiased sample standard deviation of
those w returns (exactly, in the real-number idealization). -/
theorem C2_rolling_volatility (xs : List Val) (w i : ℕ)
    (h2 : 2 ≤ w) (hn : w ≤ xs.length) (hi : i < xs.length) :
    (calculate_rolling_volatility xs w).length = xs.length ∧
    (((calculate_rolling_volatility xs w).getD i none).isSome = true ↔
      (w - 1 ≤ i ∧ ∀ j, i + 1 - w ≤ j → j ≤ i → ((xs.getD j none).isSome = true))) ∧
    ((w - 1 ≤ i ∧ ∀ j, i + 1 - w ≤ j → j ≤ i → ((xs.getD j none).isSome = true)) →
      (calculate_rolling_volatility xs w).getD i none
        = some (sampleStd ((List.range w).map fun k => (xs.getD (i + 1 - w + k) none).getD 0))) := by
  have hiff : (w ≤ i + 1 ∧ allSome (winSlice xs w i) = true) ↔
      (w - 1 ≤ i ∧ ∀ j, i + 1 - w ≤ j → j ≤ i → ((xs.getD j none).isSome = true)) := by
    constructor
    · rintro ⟨hw, hall⟩
      refine ⟨by omega, ?_⟩
      intro j hj1 hj2
      have hmap := winSlice_eq_map xs w i hw hi
      have hk : j - (i + 1 - w) < w := by omega
      have hlen : (winSlice xs w i).length = w := by rw [hmap]; simp
      have := (allSome_iff _).mp hall (j - (i + 1 - w)) (by rw [hlen]; exact hk)
      rwa [hmap, getD_map_range _ _ _ _ hk,
        (by omega : i + 1 - w + (j - (i + 1 - w)) = j)] at this
    · rintro ⟨hw1, hdef⟩
      have hw : w ≤ i + 1 := by omega
      refine ⟨hw, ?_⟩
      rw [winSlice_eq_map xs w i hw hi, allSome_iff]
      intro k hk
      simp only [List.length_map, List.length_range] at hk
      rw [getD_map_range _ _ _ _ hk]
      exact hdef (i + 1 - w + k) (by omega) (by omega)
  refine ⟨calculate_rolling_volatility_length xs w, ?_, ?_⟩
  · rw [calculate_rolling_volatility_getD xs w i hi]
    by_cases hC : 2 ≤ w ∧ w ≤ i + 1 ∧ allSome (winSlice xs w i) = true
    · rw [if_pos hC]
      exact iff_of_true rfl (hiff.mp ⟨hC.2.1, hC.2.2⟩)
    · rw [if_neg hC]
      exact iff_of_false (by simp) fun hr => hC ⟨h2, (hiff.mpr hr).1, (hiff.mpr hr).2⟩
  · intro hr
    have hw : w ≤ i + 1 := (hiff.mpr hr).1
    have hall : allSome (winSlice xs w i) = true := (hiff.mpr hr).2
    rw [calculate_rolling_volatility_getD xs w i hi, if_pos ⟨h2, hw, hall⟩]
    rw [winSlice_eq_map xs w i hw hi] at hall ⊢
    rw [someVals_of_allSome _ hall, List.map_map]
    rfl

/-- Witness for C2 at the concrete return series [1, 2] with w = 2, i = 1. -/
theorem C2_rolling_volatility_witness :
    ((2 : ℕ) ≤ 2 ∧ 2 ≤ ([some (1 : ℝ), some 2] : List Val).length ∧
      1 < ([some (1 : ℝ), some 2] : List Val).length) ∧
    ((calculate_rolling_volatility [some (1 : ℝ), some 2] 2).length = 2 ∧
      (((calculate_rolling_volatility [some (1 : ℝ), some 2] 2).getD 1 none).isSome = true ↔
        ((2 : ℕ) - 1 ≤ 1 ∧ ∀ j, 1 + 1 - 2 ≤ j → j ≤ 1 →
          ((([some (1 : ℝ), some 2] : List Val).getD j none).isSome = true))) ∧
      (((2 : ℕ) - 1 ≤ 1 ∧ ∀ j, 1 + 1 - 2 ≤ j → j ≤ 1 →
          ((([some (1 : ℝ), some 2] : List Val).getD j none).isSome = true)) →
        (calculate_rolling_volatility [some (1 : ℝ), some 2] 2).getD 1 none
          = some (sampleStd ((List.range 2).map fun k =>
              (([some (1 : ℝ), some 2] : List Val).getD (1 + 1 - 2 + k) none).getD 0)))) :=
  ⟨⟨le_refl 2, by norm_num, by norm_num⟩,
    C2_rolling_volatility [some 1, some 2] 2 1 (le_refl 2) (by norm_num) (by norm_num)⟩

/-- C4 counterexample: called with window 1 (≤ 1), the code signals nothing
and happily returns an output series (all values NaN, since the ddof = 1
standard deviation of a single sample is 0/0); no InvalidWindowError exists
in the code.  Refutes the claim at the concrete series [1, 2, 3], window 1. -/
theorem C4_counterexample :
    calculate_rolling_volatility [some (1 : ℝ), some 2, some 3] 1
      = [none, none, none] := rfl

/-- C4 amended: `calculate_rolling_volatility` performs no window validation;
a window ≤ 1 does not raise and instead yields an output series in which
every position is undefined (with a single sample the ddof = 1 standard
deviation is NaN; pandas itself rejects only negative windows). -/
theorem C4_amended (xs : List Val) (w : ℕ) (hw : w ≤ 1) :
    calculate_rolling_volatility xs w = List.replicate xs.length none := by
  rw [calculate_rolling_volatility]
  rw [List.eq_replicate_iff]
  refine ⟨by simp, ?_⟩
  intro b hb
  rcases List.mem_map.mp hb with ⟨i, _, rfl⟩
  rw [if_neg]
  rintro ⟨h2, _⟩
  omega

/-- Witness for the amended C4 at the concrete series [5] with window 1. -/
theorem C4_amended_witness :
    (1 : ℕ) ≤ 1 ∧
    calculate_rolling_volatility [some (5 : ℝ)] 1
      = List.replicate ([some (5 : ℝ)] : List Val).length none :=
  ⟨le_refl 1, C4_amended [some 5] 1 (le_refl 1)⟩

theorem rolling_pair_with_leading_none (v : Val) :
    calculate_rolling_volatility [none, v] 2 = [none, none] := by
  cases v <;> rfl

/-- C5 counterexample: prices [1, 1] are all defined and positive, so the
return series [undefined, ln 1] has position 0 as its only undefined element;
yet with window = n = 2 the rolling volatility is undefined everywhere — the
only full window reaches back to the undefined return at position 0 — rather
than having exactly one defined value at the last position. -/
theorem C5_counterexample :
    ((calculate_ln_returns [some (1 : ℝ), some 1]).getD 1 none).isSome = true ∧
    calculate_rolling_volatility (calculate_ln_returns [some (1 : ℝ), some 1]) 2
      = [none, none] := by
  have hret : calculate_ln_returns [some (1 : ℝ), some 1]
      = [none, npLog (npDiv (some 1) (some 1))] := rfl
  constructor
  · rw [hret]
    simp only [List.getD_cons_succ, List.getD_cons_zero]
    rw [npDiv_some_some 1 1 one_ne_zero, npLog_of_pos (by norm_num : (0 : ℝ) < 1 / 1)]
    rfl
  · rw [hret]
    exact rolling_pair_with_leading_none _

/-- C5 amended: for a return series derived from all-positive defined prices
of length n ≥ 3, window = n yields no defined volatility value at all (every
full window contains the undefined return at position 0); it is window = n-1
that yields exactly one defined value, at the last position, computed from
the n-1 defined returns. -/
theorem C5_amended (prices : List Val) (n : ℕ)
    (hn : prices.length = n) (h3 : 3 ≤ n)
    (hpos : ∀ j, j < n → ∃ x : ℝ, prices.getD j none = some x ∧ 0 < x) :
    (∀ i, i < n →
      (calculate_rolling_volatility (calculate_ln_returns prices) n).getD i none = none) ∧
    (((calculate_rolling_volatility (calculate_ln_returns prices) (n - 1)).getD (n - 1) none).isSome
      = true) ∧
    (∀ i, i < n - 1 →
      (calculate_rolling_volatility (calculate_ln_returns prices) (n - 1)).getD i none = none) := by
  have hrlen : (calculate_ln_returns prices).length = n := by
    rw [calculate_ln_returns_length, hn]
  have hr0 : (calculate_ln_returns prices).getD 0 none = none :=
    calculate_ln_returns_getD_zero prices
  have hrdef : ∀ j, 1 ≤ j → j < n → ((calculate_ln_returns prices).getD j none).isSome = true := by
    intro j hj1 hj2
    obtain ⟨a, ha, hapos⟩ := hpos (j - 1) (by omega)
    obtain ⟨b, hb, hbpos⟩ := hpos j hj2
    rw [ln_returns_value prices j a b hj1 (by omega) ha hb hapos hbpos]
    rfl
  refine ⟨?_, ?_, ?_⟩
  · intro i hi
    by_cases hi' : i < n - 1
    · rw [calculate_rolling_volatility_getD _ _ _ (by omega)]
      rw [if_neg]
      rintro ⟨_, hw, _⟩
      omega
    · have hieq : i = n - 1 := by omega
      rw [hieq]
      exact rolling_none_of_window_none _ n (n - 1) 0 (by omega) (by omega) (by omega) hr0
  · have hw : n - 1 ≤ (n - 1) + 1 := by omega
    have hi : n - 1 < (calculate_ln_returns prices).length := by omega
    have hall : allSome (winSlice (calculate_ln_returns prices) (n - 1) (n - 1)) = true := by
      rw [winSlice_eq_map _ _ _ hw hi, allSome_iff]
      intro k hk
      simp only [List.length_map, List.length_range] at hk
      rw [getD_map_range _ _ _ _ hk]
      have : (n - 1) + 1 - (n - 1) + k = 1 + k := by omega
      rw [this]
      exact hrdef (1 + k) (by omega) (by omega)
    rw [calculate_rolling_volatility_getD _ _ _ hi, if_pos ⟨by omega, hw, hall⟩]
    rfl
  · intro i hi
    by_cases hi' : i < n - 2
    · rw [calculate_rolling_volatility_getD _ _ _ (by omega)]
      rw [if_neg]
      rintro ⟨_, hw, _⟩
      omega
    · have hieq : i = n - 2 := by omega
      rw [hieq]
      exact rolling_none_of_window_none _ (n - 1) (n - 2) 0 (by omega) (by omega) (by omega) hr0

/-- Witness for the amended C5 at the concrete price series [1, 1, 1]. -/
theorem C5_amended_witness :
    (([some (1 : ℝ), some 1, some 1] : List Val).length = 3 ∧ (3 : ℕ) ≤ 3 ∧
      (∀ j, j < 3 →
        ∃ x : ℝ, ([some (1 : ℝ), some 1, some 1] : List Val).getD j none = some x ∧ 0 < x)) ∧
    ((∀ i, i < 3 →
        (calculate_rolling_volatility (calculate_ln_returns [some (1 : ℝ), some 1, some 1]) 3).getD i none
          = none) ∧
      (((calculate_rolling_volatility (calculate_ln_returns [some (1 : ℝ), some 1, some 1]) (3 - 1)).getD
          (3 - 1) none).isSome = true) ∧
      (∀ i, i < 3 - 1 →
        (calculate_rolling_volatility (calculate_ln_returns [some (1 : ℝ), some 1, some 1]) (3 - 1)).getD
          i none = none)) := by
  have hpos : ∀ j, j < 3 →
      ∃ x : ℝ, ([some (1 : ℝ), some 1, some 1] : List Val).getD j none = some x ∧ 0 < x := by
    intro j hj
    interval_cases j <;> exact ⟨1, rfl, by norm_num⟩
  exact ⟨⟨rfl, le_refl 3, hpos⟩,
    C5_amended [some 1, some 1, some 1] 3 rfl (le_refl 3) hpos⟩

/-- C6: a record sequence whose first unparseable date sits at index i makes
`convert_date_format` fail with an error referencing exactly that index and
the raw date; the `Except` result carries no partial series. -/
theorem C6_malformed_date {π : Type} (recs : List (RawDate × π)) (i : ℕ)
    (hi : i < recs.length)
    (hbad : validDate ((recs.map Prod.fst).getD i ⟨0, 0, 0⟩) = false)
    (hgood : ∀ j, j < i → validDate ((recs.map Prod.fst).getD j ⟨0, 0, 0⟩) = true) :
    convert_date_format recs = Except.error (i, (recs.map Prod.fst).getD i ⟨0, 0, 0⟩) := by
  have h := convertAux_error_at 0 recs i hi hbad hgood
  rw [Nat.zero_add] at h
  exact h

/-- Witness for C6 at the single-record sequence with raw date 13/40/2020
(month 13, day 40), which `MM/DD/YYYY` parsing rejects at index 0. -/
theorem C6_malformed_date_witness :
    (0 < ([(⟨13, 40, 2020⟩, ())] : List (RawDate × Unit)).length ∧
      validDate ((([(⟨13, 40, 2020⟩, ())] : List (RawDate × Unit)).map Prod.fst).getD 0 ⟨0, 0, 0⟩)
        = false) ∧
    convert_date_format ([(⟨13, 40, 2020⟩, ())] : List (RawDate × Unit))
      = Except.error (0, (⟨13, 40, 2020⟩ : RawDate)) :=
  ⟨⟨by decide, by decide⟩,
    C6_malformed_date ([(⟨13, 40, 2020⟩, ())] : List (RawDate × Unit)) 0 (by decide)
      (by decide) (fun j hj => absurd hj (Nat.not_lt_zero j))⟩

theorem normalize_ok_of_valid {π : Type} (recs : List (RawDate × π))
    (hvalid : ∀ d ∈ recs.map Prod.fst, validDate d = true) :
    normalize recs = Except.ok (recs.reverse.map fun r => (toDMY r.1, r.2)) := by
  have hrev : ∀ d ∈ recs.reverse.map Prod.fst, validDate d = true := by
    intro d hd
    apply hvalid
    rw [List.map_reverse, List.mem_reverse] at hd
    exact hd
  exact convertAux_ok_of_valid 0 recs.reverse hrev

/-- C7 counterexample: two records with the identical date 01/02/2020 pass
through normalization untouched — no NonMonotonicDateError is signalled, no
drop/merge policy is applied, and the produced series carries duplicate
(hence non-strictly-increasing) dates. -/
theorem C7_counterexample :
    normalize ([(⟨1, 2, 2020⟩, ()), (⟨1, 2, 2020⟩, ())] : List (RawDate × Unit))
      = Except.ok [(⟨2, 1, 2020⟩, ()), (⟨2, 1, 2020⟩, ())] ∧
    ¬ dmyKey ⟨2, 1, 2020⟩ < dmyKey ⟨2, 1, 2020⟩ :=
  ⟨rfl, by decide⟩

/-- C7 amended: the code performs no monotonicity check at all — whenever
every date parses, normalization succeeds and returns exactly the reversed,
reformatted records, duplicates and decreasing runs included; no
NonMonotonicDateError exists in the code and nothing is dropped or merged. -/
theorem C7_amended {π : Type} (recs : List (RawDate × π))
    (hvalid : ∀ d ∈ recs.map Prod.fst, validDate d = true) :
    normalize recs = Except.ok (recs.reverse.map fun r => (toDMY r.1, r.2)) :=
  normalize_ok_of_valid recs hvalid

/-- Witness for the amended C7 at the duplicate-date input. -/
theorem C7_amended_witness :
    (∀ d ∈ ([(⟨1, 2, 2020⟩, ()), (⟨1, 2, 2020⟩, ())] : List (RawDate × Unit)).map Prod.fst,
      validDate d = true) ∧
    normalize ([(⟨1, 2, 2020⟩, ()), (⟨1, 2, 2020⟩, ())] : List (RawDate × Unit))
      = Except.ok
          (([(⟨1, 2, 2020⟩, ()), (⟨1, 2, 2020⟩, ())] : List (RawDate × Unit)).reverse.map
            fun r => (toDMY r.1, r.2)) :=
  ⟨by decide, C7_amended _ (by decide)⟩

/-- C8: a raw input whose valid dates are strictly decreasing (newest first)
normalizes successfully, and the produced series has strictly increasing
dates in forward order (date values are preserved by the format rewrite). -/
theorem C8_reversal_sorts {π : Type} (recs : List (RawDate × π))
    (hvalid : ∀ d ∈ recs.map Prod.fst, validDate d = true)
    (hdec : List.Pairwise (fun a b => mdyKey b < mdyKey a) (recs.map Prod.fst)) :
    normalize recs = Except.ok (recs.reverse.map fun r => (toDMY r.1, r.2)) ∧
    List.Pairwise (fun a b => dmyKey a.1 < dmyKey b.1)
      (recs.reverse.map fun r => (toDMY r.1, r.2)) := by
  refine ⟨normalize_ok_of_valid recs hvalid, ?_⟩
  rw [List.pairwise_map, List.pairwise_reverse]
  rw [List.pairwise_map] at hdec
  exact hdec

/-- Witness for C8 at the three-record input Jan 3, Jan 2, Jan 1 2020
(reverse-chronological, all distinct and valid). -/
theorem C8_reversal_sorts_witness :
    ((∀ d ∈ ([(⟨1, 3, 2020⟩, ()), (⟨1, 2, 2020⟩, ()), (⟨1, 1, 2020⟩, ())] :
        List (RawDate × Unit)).map Prod.fst, validDate d = true) ∧
      List.Pairwise (fun a b => mdyKey b < mdyKey a)
        (([(⟨1, 3, 2020⟩, ()), (⟨1, 2, 2020⟩, ()), (⟨1, 1, 2020⟩, ())] :
          List (RawDate × Unit)).map Prod.fst)) ∧
    (normalize ([(⟨1, 3, 2020⟩, ()), (⟨1, 2, 2020⟩, ()), (⟨1, 1, 2020⟩, ())] :
        List (RawDate × Unit))
      = Except.ok
          (([(⟨1, 3, 2020⟩, ()), (⟨1, 2, 2020⟩, ()), (⟨1, 1, 2020⟩, ())] :
            List (RawDate × Unit)).reverse.map fun r => (toDMY r.1, r.2)) ∧
      List.Pairwise (fun a b => dmyKey a.1 < dmyKey b.1)
        (([(⟨1, 3, 2020⟩, ()), (⟨1, 2, 2020⟩, ()), (⟨1, 1, 2020⟩, ())] :
          List (RawDate × Unit)).reverse.map fun r => (toDMY r.1, r.2))) :=
  ⟨⟨by decide, by decide⟩, C8_reversal_sorts _ (by decide) (by decide)⟩

/-- C9: every pipeline stage copies its input frame and assigns only on the
copy: the object behind the input reference is unchanged afterwards and the
returned reference is a different (freshly allocated) object.  For the date
conversion the successful case is stated; on failure no frame is returned at
all (and in the source the exception fires before any assignment). -/
theorem C9_stages_do_not_mutate (s sc : Store) (r rc2 dcol pcol rcol w : ℕ)
    (hr : r < s.heap.length)
    (hconv : convert_date_format_df s r dcol = Except.ok (sc, rc2)) :
    ((calculate_ln_returns_df s r pcol).1.read r = s.read r ∧
      (calculate_ln_returns_df s r pcol).2 ≠ r) ∧
    ((calculate_rolling_volatility_df s r rcol w).1.read r = s.read r ∧
      (calculate_rolling_volatility_df s r rcol w).2 ≠ r) ∧
    (sc.read r = s.read r ∧ rc2 ≠ r) := by
  refine ⟨⟨store_read_alloc_write s _ _ r hr, ne_of_gt hr⟩,
    ⟨store_read_alloc_write s _ _ r hr, ne_of_gt hr⟩, ?_⟩
  unfold convert_date_format_df at hconv
  rcases hcol : convertCol 0 ((s.read r).getCol dcol) with e | nc
  · rw [hcol] at hconv
    exact absurd hconv (by simp)
  · rw [hcol] at hconv
    simp only [Except.ok.injEq, Prod.mk.injEq] at hconv
    obtain ⟨hsc, hrc⟩ := hconv
    rw [← hsc, ← hrc]
    exact ⟨store_read_alloc_write s _ _ r hr, ne_of_gt hr⟩

/-- Concrete single-frame store used to witness C9: a date column (label 0)
and a price column (label 1). -/
def exDF : DF := ⟨[(0, [Cell.mdy ⟨1, 2, 2020⟩]), (1, [Cell.num (some 1)])]⟩

/-- The frame produced by converting the date column of `exDF`. -/
def exDF2 : DF := ⟨[(0, [Cell.dmy ⟨2, 1, 2020⟩]), (1, [Cell.num (some 1)])]⟩

/-- The witness store holding the single frame `exDF` at reference 0. -/
def exStore : Store := ⟨[exDF]⟩

/-- Witness for C9 at the concrete store `exStore`, reference 0. -/
theorem C9_stages_do_not_mutate_witness :
    (0 < exStore.heap.length ∧
      convert_date_format_df exStore 0 0 = Except.ok (⟨[exDF, exDF2]⟩, 1)) ∧
    (((calculate_ln_returns_df exStore 0 1).1.read 0 = exStore.read 0 ∧
        (calculate_ln_returns_df exStore 0 1).2 ≠ 0) ∧
      ((calculate_rolling_volatility_df exStore 0 1 2).1.read 0 = exStore.read 0 ∧
        (calculate_rolling_volatility_df exStore 0 1 2).2 ≠ 0) ∧
      (Store.read ⟨[exDF, exDF2]⟩ 0 = exStore.read 0 ∧ (1 : ℕ) ≠ 0)) :=
  ⟨⟨Nat.zero_lt_one, rfl⟩,
    C9_stages_do_not_mutate exStore ⟨[exDF, exDF2]⟩ 0 1 0 1 1 2 Nat.zero_lt_one rfl⟩

end NatgasHH
